import Mathlib

/-!
Verification of the simulator and summary-statistic pipeline of the
`sbi` tutorial notebook `08_crafting_summary_statistics.ipynb`.

The notebook's reproducible core is four numpy functions:

* `create_t_x`  — builds the 200-point time grid over [-1, 1] and a noisy
  quadratic trace matrix of shape (200, N);
* `eval`        — evaluates the noisy quadratic at a single scalar time for a
  batch of parameter triples, adding one shared noise draw per call;
* `get_3_values`— stacks three `eval` calls (t = -0.5, 0, 0.75) into an
  (N, 3) summary-statistic matrix;
* `get_MSE`     — mean squared difference between the candidate traces and a
  reference trace, returned as an (N, 1) column.

The embedding models numpy's seeded generator `np.random.RandomState(seed)`
as an abstract family of standard-normal sample paths
`R : Nat → Nat → K`, where `R seed k` is the k-th value produced by a
generator freshly constructed from `seed`.  `rng.randn(m, n)` fills its
(i, j) entry with draw number `i * n + j` (row-major order), and
`rng.randn(1)` is a single array holding draw number 0.  All theorems
quantify over `R`, so they hold for every possible realization of the
underlying Gaussian stream.  Scalars live in an arbitrary linear ordered
field `K` (instantiate `K := ℝ`), standing in for IEEE floats as usual for
a shallow embedding of numerical python code; the float literals 0.01,
-0.5 and 0.75 of the source are written 1/100, -(1/2) and 3/4.

A parameter array `theta` may be 1-D (a single triple) or 2-D (a batch of
rows); numpy's `theta[np.newaxis, :]` promotion is `Theta.promote`.
Column slicing `theta[:, k]` is `getCol`, which raises (models
`IndexError`) exactly when `k` is out of bounds for the (rectangular)
second axis.  Fallible numpy operations are embedded in `Except String`.
-/

namespace SummaryStats

variable {K : Type} [LinearOrderedField K]

/-- A numpy parameter array: either a 1-D vector `(a, b, c, ...)` or a 2-D
batch whose rows are parameter vectors. -/
inductive Theta (K : Type) where
  | vec (v : List K)
  | batch (rows : List (List K))

/-- `theta[np.newaxis, :]` promotion performed by every notebook function:
a 1-D vector becomes a batch with a single row; a 2-D batch is unchanged. -/
def Theta.promote : Theta K → List (List K)
  | .vec v => [v]
  | .batch rows => rows

/-- Column `k` of a rectangular 2-D array, i.e. numpy's `theta[:, k]`.
Raises (models `IndexError`) when `k` is out of bounds for axis 1. -/
def getCol (rows : List (List K)) (k : Nat) : Except String (List K) :=
  if rows.all (fun r => decide (k < r.length)) then
    .ok (rows.map fun r => r.getD k 0)
  else
    .error "IndexError: index is out of bounds for axis 1"

/-- `np.linspace lo hi n`: `n` evenly spaced points from `lo` to `hi`
inclusive. -/
def linspace (lo hi : K) (n : Nat) : List K :=
  (List.range n).map fun i : Nat => lo + (hi - lo) * i / ((n : K) - 1)

/-- The notebook's `create_t_x(theta, seed)`:

    t = np.linspace(-1, 1, 200)
    ts = np.repeat(t[:, np.newaxis], theta.shape[0], axis=1)
    x = theta[:, 0] * ts**2 + theta[:, 1] * ts + theta[:, 2]
        + 0.01 * rng.randn(ts.shape[0], theta.shape[0])
    return t, x

`x` has 200 rows (time points) of `N = theta.shape[0]` entries (samples);
the noise entry at (i, j) is draw `i * N + j` of the freshly seeded
generator. -/
def create_t_x (R : Nat → Nat → K) (theta : Theta K) (seed : Nat) :
    Except String (List K × List (List K)) := do
  let th := theta.promote
  let N := th.length
  let a ← getCol th 0
  let b ← getCol th 1
  let c ← getCol th 2
  let t := linspace (-1) 1 200
  let x := (List.range 200).map fun i =>
    (List.range N).map fun j =>
      a.getD j 0 * (t.getD i 0) ^ 2 + b.getD j 0 * (t.getD i 0) + c.getD j 0
        + (1 / 100) * R seed (i * N + j)
  return (t, x)

/-- The notebook's `eval(theta, t, seed)`:

    return theta[:, 0] * t**2 + theta[:, 1] * t + theta[:, 2]
        + 0.01 * rng.randn(1)

one batch of `N` scalars; `rng.randn(1)` is a single draw (draw number 0 of
the freshly seeded generator) broadcast across the whole batch. -/
def eval (R : Nat → Nat → K) (theta : Theta K) (t : K) (seed : Nat) :
    Except String (List K) := do
  let th := theta.promote
  let a ← getCol th 0
  let b ← getCol th 1
  let c ← getCol th 2
  return (List.range th.length).map fun j =>
    a.getD j 0 * t ^ 2 + b.getD j 0 * t + c.getD j 0 + (1 / 100) * R seed 0

/-- The notebook's `get_3_values(theta, seed)`:

    return np.array([
        eval(theta, -0.5, seed=seed),
        eval(theta, 0, seed=seed),
        eval(theta, 0.75, seed=seed),
    ]).T

three `eval` calls stacked and transposed into an (N, 3) matrix. -/
def get_3_values (R : Nat → Nat → K) (theta : Theta K) (seed : Nat) :
    Except String (List (List K)) := do
  let v1 ← eval R theta (-(1 / 2)) seed
  let v2 ← eval R theta 0 seed
  let v3 ← eval R theta (3 / 4) seed
  return (List.range v1.length).map fun j =>
    [v1.getD j 0, v2.getD j 0, v3.getD j 0]

/-- numpy broadcasting compatibility of two 1-D slices along the last axis:
equal lengths, or one of them a singleton. -/
def canBroadcast (u v : List K) : Bool :=
  decide (u.length = v.length) || decide (u.length = 1) || decide (v.length = 1)

/-- Elementwise broadcast subtraction of two compatible 1-D slices
(only used under a `canBroadcast` guard). -/
def rowSub (u v : List K) : List K :=
  if u.length = v.length then List.zipWith (fun p q => p - q) u v
  else if v.length = 1 then u.map fun p => p - v.getD 0 0
  else v.map fun q => u.getD 0 0 - q

/-- The notebook's `get_MSE(theta, theta_o, seed)`:

    _, x = create_t_x(theta_o, seed=seed)  # truth
    _, x_ = create_t_x(theta, seed=seed)   # simulations
    return np.mean(np.square(x_ - x), axis=0, keepdims=True).T

`x_ - x` broadcasts along the sample axis (raising when the widths are
incompatible), is squared elementwise, averaged over the 200 time rows,
and returned as a column. -/
def get_MSE (R : Nat → Nat → K) (theta theta_o : Theta K) (seed : Nat) :
    Except String (List (List K)) := do
  let (_, x) ← create_t_x R theta_o seed
  let (_, x_) ← create_t_x R theta seed
  if (List.zip x_ x).all (fun p => canBroadcast p.1 p.2) then
    let d := (List.zip x_ x).map fun p => rowSub p.1 p.2
    let sq := d.map fun row => row.map fun y => y ^ 2
    let w := (sq.headD []).length
    let m := (List.range w).map fun j =>
      ((sq.map fun row => row.getD j 0).sum) / (sq.length : K)
    return m.map fun v => [v]
  else
    .error "ValueError: operands could not be broadcast together"

/-- `a` coefficient of parameter vector `j` of the promoted batch. -/
def Theta.a (th : Theta K) (j : Nat) : K := (th.promote.getD j []).getD 0 0

/-- `b` coefficient of parameter vector `j` of the promoted batch. -/
def Theta.b (th : Theta K) (j : Nat) : K := (th.promote.getD j []).getD 1 0

/-- `c` coefficient of parameter vector `j` of the promoted batch. -/
def Theta.c (th : Theta K) (j : Nat) : K := (th.promote.getD j []).getD 2 0

/-- Whether an `Except` result is a success, i.e. the call returned rather
than raised. -/
def isOk {α : Type} : Except String α → Bool
  | .ok _ => true
  | .error _ => false

/-! ### Basic list lemmas used throughout -/

theorem getD_map_range {α : Type} (f : Nat → α) (d : α) {n i : Nat} (h : i < n) :
    ((List.range n).map f).getD i d = f i := by
  rw [List.getD_eq_getElem _ _ (by simpa using h)]
  simp

theorem getD_map_of_lt {α β : Type} (f : α → β) (l : List α) (d : β) (d' : α)
    {j : Nat} (h : j < l.length) : (l.map f).getD j d = f (l.getD j d') := by
  rw [List.getD_eq_getElem _ _ (by simpa using h), List.getD_eq_getElem _ _ h]
  simp

theorem headD_eq_getD {α : Type} (l : List α) (d : α) : l.headD d = l.getD 0 d := by
  cases l <;> rfl

theorem zip_self {α : Type} (l : List α) : List.zip l l = l.map fun a => (a, a) := by
  induction l with
  | nil => rfl
  | cons a l ih => simpa [List.zip_cons_cons] using ih

/-! ### Canonical success forms of the notebook functions -/

theorem getCol_ok (rows : List (List K)) (k : Nat) (h : ∀ r ∈ rows, k < r.length) :
    getCol rows k = .ok (rows.map fun r => r.getD k 0) := by
  unfold getCol
  rw [if_pos]
  exact List.all_eq_true.mpr fun r hr => decide_eq_true (h r hr)

theorem getCol_err (rows : List (List K)) (k : Nat) (r₀ : List K) (hr : r₀ ∈ rows)
    (h : r₀.length ≤ k) :
    getCol rows k = .error "IndexError: index is out of bounds for axis 1" := by
  unfold getCol
  rw [if_neg]
  intro hall
  exact absurd (of_decide_eq_true (List.all_eq_true.mp hall r₀ hr)) (Nat.not_lt.mpr h)

/-- The time grid of `create_t_x`. -/
theorem linspace_length (lo hi : K) (n : Nat) : (linspace lo hi n).length = n := by
  rw [linspace, List.length_map, List.length_range]

theorem linspace_getD (lo hi : K) {n i : Nat} (h : i < n) :
    (linspace lo hi n).getD i 0 = lo + (hi - lo) * i / ((n : K) - 1) := by
  rw [linspace]
  exact getD_map_range (fun i => lo + (hi - lo) * (i : K) / ((n : K) - 1)) 0 h

/-- Successful run of `create_t_x` in closed form: the fixed grid together
with the trace matrix whose `(i, j)` entry is the quadratic evaluated at
`t i` for sample `j`, plus `0.01` times draw `i * N + j`. -/
theorem create_t_x_ok (R : Nat → Nat → K) (theta : Theta K) (seed : Nat)
    (hd : ∀ r ∈ theta.promote, 3 ≤ r.length) :
    create_t_x R theta seed = .ok (linspace (-1) 1 200,
      (List.range 200).map fun i =>
        (List.range theta.promote.length).map fun j =>
          (theta.promote.map fun r => r.getD 0 0).getD j 0
              * ((linspace (-1) 1 200).getD i 0) ^ 2
            + (theta.promote.map fun r => r.getD 1 0).getD j 0
              * ((linspace (-1) 1 200).getD i 0)
            + (theta.promote.map fun r => r.getD 2 0).getD j 0
            + (1 / 100) * R seed (i * theta.promote.length + j)) := by
  unfold create_t_x
  dsimp only
  rw [getCol_ok _ 0 (fun r hr => lt_of_lt_of_le (by norm_num) (hd r hr)),
      getCol_ok _ 1 (fun r hr => lt_of_lt_of_le (by norm_num) (hd r hr)),
      getCol_ok _ 2 (fun r hr => lt_of_lt_of_le (by norm_num) (hd r hr))]
  rfl

/-- Successful run of `eval` in closed form: a batch of `N` values, the `j`-th
being the quadratic at `t` for sample `j` plus `0.01` times draw 0. -/
theorem eval_ok (R : Nat → Nat → K) (theta : Theta K) (t : K) (seed : Nat)
    (hd : ∀ r ∈ theta.promote, 3 ≤ r.length) :
    eval R theta t seed = .ok ((List.range theta.promote.length).map fun j =>
      (theta.promote.map fun r => r.getD 0 0).getD j 0 * t ^ 2
        + (theta.promote.map fun r => r.getD 1 0).getD j 0 * t
        + (theta.promote.map fun r => r.getD 2 0).getD j 0
        + (1 / 100) * R seed 0) := by
  unfold eval
  dsimp only
  rw [getCol_ok _ 0 (fun r hr => lt_of_lt_of_le (by norm_num) (hd r hr)),
      getCol_ok _ 1 (fun r hr => lt_of_lt_of_le (by norm_num) (hd r hr)),
      getCol_ok _ 2 (fun r hr => lt_of_lt_of_le (by norm_num) (hd r hr))]
  rfl

/-- The coefficient read by the closed forms agrees with `Theta.a`/`b`/`c`
for in-range sample indices. -/
theorem coeff_getD (th : Theta K) (k : Nat) {j : Nat} (hj : j < th.promote.length) :
    (th.promote.map fun r => r.getD k 0).getD j 0 = (th.promote.getD j []).getD k 0 :=
  getD_map_of_lt _ _ _ _ hj

theorem ok_bind {α β : Type} (a : α) (f : α → Except String β) :
    (Except.ok a >>= f) = f a := rfl

/-- Successful run of `get_3_values` in closed form: row `j` holds the three
noisy evaluations at t = -0.5, 0, 0.75, every one carrying the *same* noise
term `(1/100) * R seed 0`, because each `eval` invocation reconstructs the
generator from the same seed and consumes its first draw. -/
theorem get_3_values_ok (R : Nat → Nat → K) (theta : Theta K) (seed : Nat)
    (hd : ∀ r ∈ theta.promote, 3 ≤ r.length) :
    get_3_values R theta seed = .ok ((List.range theta.promote.length).map fun j =>
      [theta.a j * (-(1 / 2) : K) ^ 2 + theta.b j * (-(1 / 2)) + theta.c j
          + (1 / 100) * R seed 0,
       theta.a j * (0 : K) ^ 2 + theta.b j * 0 + theta.c j + (1 / 100) * R seed 0,
       theta.a j * ((3 / 4) : K) ^ 2 + theta.b j * (3 / 4) + theta.c j
          + (1 / 100) * R seed 0]) := by
  unfold get_3_values
  rw [eval_ok R theta (-(1 / 2)) seed hd, eval_ok R theta 0 seed hd,
    eval_ok R theta (3 / 4) seed hd, ok_bind, ok_bind, ok_bind]
  show Except.ok _ = _
  rw [List.length_map, List.length_range]
  refine congrArg Except.ok (List.map_congr_left ?_)
  intro j hj
  rw [List.mem_range] at hj
  rw [getD_map_range _ _ hj, getD_map_range _ _ hj, getD_map_range _ _ hj,
    coeff_getD theta 0 hj, coeff_getD theta 1 hj, coeff_getD theta 2 hj]
  rfl

/-- `rowSub` against a singleton reference row is plain subtraction of that
single value from every entry (numpy broadcast of a width-1 operand). -/
theorem rowSub_single (u : List K) (y : K) : rowSub u [y] = u.map fun p => p - y := by
  unfold rowSub
  by_cases h : u.length = ([y] : List K).length
  · rw [if_pos h]
    obtain ⟨a, ha⟩ := List.length_eq_one.mp (by simpa using h)
    subst ha
    rfl
  · rw [if_neg h, if_pos (show ([y] : List K).length = 1 by simp)]
    rfl

theorem all_canBroadcast_pair_singleton {n : Nat} (f : Nat → List K) (g : Nat → K) :
    (((List.range n).map fun i => (f i, [g i])).all fun p => canBroadcast p.1 p.2)
      = true := by
  refine List.all_eq_true.mpr ?_
  intro p hp
  rcases List.mem_map.mp hp with ⟨i, _, rfl⟩
  simp [canBroadcast]

/-- Successful run of `get_MSE` against a single 1-D reference vector `w`, in
closed form: an N × 1 column whose j-th entry is the mean over the 200 time
points of the squared difference between the candidate's noisy trace entry
(draw `i * N + j`) and the reference's noisy trace entry (draw `i`, since the
reference batch has width 1). -/
theorem get_MSE_ok_single_ref (R : Nat → Nat → K) (theta : Theta K) (w : List K)
    (seed : Nat) (hd : ∀ r ∈ theta.promote, 3 ≤ r.length) (hw3 : 3 ≤ w.length) :
    get_MSE R theta (.vec w) seed = .ok ((List.range theta.promote.length).map fun j =>
      [((List.range 200).map fun i =>
          ((theta.promote.map fun r => r.getD 0 0).getD j 0
                * ((linspace (-1) 1 200).getD i 0) ^ 2
              + (theta.promote.map fun r => r.getD 1 0).getD j 0
                * ((linspace (-1) 1 200).getD i 0)
              + (theta.promote.map fun r => r.getD 2 0).getD j 0
              + (1 / 100) * R seed (i * theta.promote.length + j)
            - (w.getD 0 0 * ((linspace (-1) 1 200).getD i 0) ^ 2
              + w.getD 1 0 * ((linspace (-1) 1 200).getD i 0) + w.getD 2 0
              + (1 / 100) * R seed (i * 1 + 0))) ^ 2).sum / (200 : K)]) := by
  have hdw : ∀ r ∈ (Theta.vec w).promote, 3 ≤ r.length := by
    intro r hr
    have : r = w := by simpa [Theta.promote] using hr
    subst this
    exact hw3
  unfold get_MSE
  rw [create_t_x_ok R (.vec w) seed hdw, ok_bind]
  dsimp only
  rw [create_t_x_ok R theta seed hd, ok_bind]
  dsimp only
  rw [List.zip_map']
  have hr1 : List.range 1 = [0] := rfl
  have hpw : (Theta.vec w : Theta K).promote = [w] := rfl
  simp only [hpw, List.length_cons, List.length_nil, Nat.zero_add, hr1,
    List.map_cons, List.map_nil, List.getD_cons_zero]
  rw [all_canBroadcast_pair_singleton, if_pos (Eq.refl true)]
  simp only [List.map_map, Function.comp_def, rowSub_single]
  rw [headD_eq_getD]
  rw [getD_map_range _ _ (show (0 : Nat) < 200 by norm_num)]
  simp only [List.length_map, List.length_range, Nat.cast_ofNat]
  refine congrArg Except.ok (List.map_congr_left ?_)
  intro j hj
  rw [List.mem_range] at hj
  congr 1
  refine congrArg (fun s => s / (200 : K)) (congrArg List.sum (List.map_congr_left ?_))
  intro i hi
  rw [List.mem_range] at hi
  rw [getD_map_range _ _ hj]

/-! ### Claims -/

/-- C1: for every batch of N parameter triples, `create_t_x` returns the fixed
200-point evenly spaced grid over [-1, 1] (point i is -1 + 2i/199) and a
200 × N trace matrix whose (i, j) entry is
`a_j * t_i ^ 2 + b_j * t_i + c_j` plus 0.01 times the Gaussian draw numbered
`i * N + j` of the per-call stream; the draw-index map is injective on the
matrix, so no two entries — across time points or across samples — share a
draw. -/
theorem claim_C1_create_t_x_grid_and_entries (R : Nat → Nat → K) (theta : Theta K)
    (seed : Nat) (hd : ∀ r ∈ theta.promote, 3 ≤ r.length) :
    ∃ t x, create_t_x R theta seed = .ok (t, x) ∧
      t.length = 200 ∧
      (∀ i, i < 200 → t.getD i 0 = (-1 : K) + 2 * i / 199) ∧
      x.length = 200 ∧
      (∀ row ∈ x, row.length = theta.promote.length) ∧
      (∀ i j, i < 200 → j < theta.promote.length →
        (x.getD i []).getD j 0 =
          theta.a j * (t.getD i 0) ^ 2 + theta.b j * (t.getD i 0) + theta.c j
            + (1 / 100) * R seed (i * theta.promote.length + j)) ∧
      (∀ i j i' j', i < 200 → j < theta.promote.length →
        i' < 200 → j' < theta.promote.length →
        i * theta.promote.length + j = i' * theta.promote.length + j' →
        i = i' ∧ j = j') := by
  refine ⟨_, _, create_t_x_ok R theta seed hd, linspace_length _ _ _, ?_, ?_, ?_, ?_, ?_⟩
  · intro i hi
    rw [linspace_getD _ _ hi]
    norm_num
  · simp
  · intro row hrow
    rcases List.mem_map.mp hrow with ⟨i, _, rfl⟩
    simp
  · intro i j hi hj
    rw [getD_map_range _ _ hi, getD_map_range _ _ hj,
      coeff_getD theta 0 hj, coeff_getD theta 1 hj, coeff_getD theta 2 hj]
    rfl
  · intro i j i' j' hi hj hi' hj' heq
    have hN : 0 < theta.promote.length := Nat.lt_of_le_of_lt (Nat.zero_le _) hj
    have e1 : (i * theta.promote.length + j) / theta.promote.length = i := by
      rw [Nat.mul_comm, Nat.mul_add_div hN, Nat.div_eq_of_lt hj, Nat.add_zero]
    have e2 : (i' * theta.promote.length + j') / theta.promote.length = i' := by
      rw [Nat.mul_comm, Nat.mul_add_div hN, Nat.div_eq_of_lt hj', Nat.add_zero]
    have hii : i = i' := by rw [← e1, heq, e2]
    subst hii
    exact ⟨rfl, Nat.add_left_cancel heq⟩

/-- Witness for C1 at the concrete batch `[(1, 2, 3), (4, 5, 6)]` over ℚ with
the stream whose draw k has value k + 1. -/
theorem claim_C1_witness :
    ∃ t x, create_t_x (fun _ k => (k : ℚ) + 1)
        (Theta.batch [[1, 2, 3], [4, 5, 6]]) 0 = .ok (t, x) ∧
      t.length = 200 ∧
      (∀ i, i < 200 → t.getD i 0 = (-1 : ℚ) + 2 * i / 199) ∧
      x.length = 200 ∧
      (∀ row ∈ x, row.length = (Theta.batch [[1, 2, 3], [4, 5, 6]]).promote.length) ∧
      (∀ i j, i < 200 → j < (Theta.batch [[1, 2, 3], [4, 5, 6]]).promote.length →
        (x.getD i []).getD j 0 =
          (Theta.batch [[1, 2, 3], [4, 5, 6]]).a j * (t.getD i 0) ^ 2
            + (Theta.batch [[1, 2, 3], [4, 5, 6]]).b j * (t.getD i 0)
            + (Theta.batch [[1, 2, 3], [4, 5, 6]]).c j
            + (1 / 100) * ((i * (Theta.batch [[(1 : ℚ), 2, 3], [4, 5, 6]]).promote.length + j : Nat) + 1)) ∧
      (∀ i j i' j', i < 200 → j < (Theta.batch [[1, 2, 3], [4, 5, 6]]).promote.length →
        i' < 200 → j' < (Theta.batch [[1, 2, 3], [4, 5, 6]]).promote.length →
        i * (Theta.batch [[(1 : ℚ), 2, 3], [4, 5, 6]]).promote.length + j
          = i' * (Theta.batch [[(1 : ℚ), 2, 3], [4, 5, 6]]).promote.length + j' →
        i = i' ∧ j = j') :=
  claim_C1_create_t_x_grid_and_entries _ _ _ (by simp [Theta.promote])

/-- C4: for every valid parameter batch and scalar time t, `eval` returns N
scalars, the j-th being `a_j * t^2 + b_j * t + c_j` plus 0.01 times draw 0 of
the per-call stream — a single draw per call; the residual noise is literally
the same for every pair of batch entries (shared broadcast draw), unlike the
per-entry draws of `create_t_x`. -/
theorem claim_C4_eval_shared_draw (R : Nat → Nat → K) (theta : Theta K) (t : K)
    (seed : Nat) (hd : ∀ r ∈ theta.promote, 3 ≤ r.length) :
    ∃ v, eval R theta t seed = .ok v ∧ v.length = theta.promote.length ∧
      (∀ j, j < theta.promote.length →
        v.getD j 0 = theta.a j * t ^ 2 + theta.b j * t + theta.c j
          + (1 / 100) * R seed 0) ∧
      (∀ j j', j < theta.promote.length → j' < theta.promote.length →
        v.getD j 0 - (theta.a j * t ^ 2 + theta.b j * t + theta.c j)
          = v.getD j' 0 - (theta.a j' * t ^ 2 + theta.b j' * t + theta.c j')) := by
  refine ⟨_, eval_ok R theta t seed hd, by simp, ?_, ?_⟩
  · intro j hj
    rw [getD_map_range _ _ hj,
      coeff_getD theta 0 hj, coeff_getD theta 1 hj, coeff_getD theta 2 hj]
    rfl
  · intro j j' hj hj'
    rw [getD_map_range _ _ hj, getD_map_range _ _ hj',
      coeff_getD theta 0 hj, coeff_getD theta 1 hj, coeff_getD theta 2 hj,
      coeff_getD theta 0 hj', coeff_getD theta 1 hj', coeff_getD theta 2 hj']
    show theta.a j * t ^ 2 + theta.b j * t + theta.c j + (1 / 100) * R seed 0
        - (theta.a j * t ^ 2 + theta.b j * t + theta.c j)
      = theta.a j' * t ^ 2 + theta.b j' * t + theta.c j' + (1 / 100) * R seed 0
        - (theta.a j' * t ^ 2 + theta.b j' * t + theta.c j')
    ring

/-- Witness for C4 at the batch `[(1, 0, 2), (0, 3, 4)]`, time t = 5, over ℚ. -/
theorem claim_C4_witness :
    ∃ v, eval (fun _ k => (k : ℚ) + 1) (Theta.batch [[1, 0, 2], [0, 3, 4]]) 5 9 = .ok v ∧
      v.length = (Theta.batch [[1, 0, 2], [0, 3, 4]]).promote.length ∧
      (∀ j, j < (Theta.batch [[1, 0, 2], [0, 3, 4]]).promote.length →
        v.getD j 0 = (Theta.batch [[1, 0, 2], [0, 3, 4]]).a j * 5 ^ 2
          + (Theta.batch [[1, 0, 2], [0, 3, 4]]).b j * 5
          + (Theta.batch [[1, 0, 2], [0, 3, 4]]).c j + (1 / 100) * ((0 : Nat) + 1)) ∧
      (∀ j j', j < (Theta.batch [[1, 0, 2], [0, 3, 4]]).promote.length →
        j' < (Theta.batch [[1, 0, 2], [0, 3, 4]]).promote.length →
        v.getD j 0 - ((Theta.batch [[1, 0, 2], [0, 3, 4]]).a j * 5 ^ 2
            + (Theta.batch [[1, 0, 2], [0, 3, 4]]).b j * 5
            + (Theta.batch [[1, 0, 2], [0, 3, 4]]).c j)
          = v.getD j' 0 - ((Theta.batch [[1, 0, 2], [0, 3, 4]]).a j' * 5 ^ 2
            + (Theta.batch [[1, 0, 2], [0, 3, 4]]).b j' * 5
            + (Theta.batch [[(1 : ℚ), 0, 2], [0, 3, 4]]).c j')) :=
  claim_C4_eval_shared_draw _ _ _ _ (by simp [Theta.promote])

/-- C5: `create_t_x` is deterministic under seeding — its output depends on
the random model only through the stream attached to the given seed, so two
invocations whose freshly constructed generators agree (as they must, being
seeded identically) produce identical output, whatever the rest of the model
looks like. -/
theorem claim_C5_trace_determinism (R1 R2 : Nat → Nat → K) (theta : Theta K)
    (seed : Nat) (h : R1 seed = R2 seed) :
    create_t_x R1 theta seed = create_t_x R2 theta seed := by
  unfold create_t_x
  simp only [h]

/-- Witness for C5: two syntactically different stream models that agree at
seed 0 give identical traces for the batch `[(1, 2, 3)]`. -/
theorem claim_C5_witness :
    create_t_x (fun s k => (s : ℚ) * k) (Theta.vec [1, 2, 3]) 0
      = create_t_x (fun s k => (k : ℚ) * s) (Theta.vec [1, 2, 3]) 0 :=
  claim_C5_trace_determinism _ _ _ _ (by funext k; norm_num)

/-- C6: on every valid input — a single 1-D triple (promoted to a batch of
size 1) or a 2-D batch of N rows — `create_t_x` returns a trace of exactly
200 rows (time points) each of width N, i.e. shape (|TimeGrid| × N), with
N = 1 for a single vector. -/
theorem claim_C6_trace_shape (R : Nat → Nat → K) (theta : Theta K) (seed : Nat)
    (hd : ∀ r ∈ theta.promote, 3 ≤ r.length) :
    ∃ t x, create_t_x R theta seed = .ok (t, x) ∧
      t.length = 200 ∧ x.length = 200 ∧
      (∀ row ∈ x, row.length = theta.promote.length) ∧
      (∀ v : List K, theta = .vec v → theta.promote.length = 1) := by
  refine ⟨_, _, create_t_x_ok R theta seed hd, linspace_length _ _ _, by simp, ?_, ?_⟩
  · intro row hrow
    rcases List.mem_map.mp hrow with ⟨i, _, rfl⟩
    simp
  · intro v hv
    subst hv
    rfl

/-- C8: for every valid parameter batch of size N, `get_3_values` returns an
N × 3 matrix obtained by invoking the point-evaluation function `eval` at the
three fixed times -0.5, 0, 0.75 (in that column order) and concatenating the
three result batches along the feature axis: row j is exactly
`[e1_j, e2_j, e3_j]` where `e1, e2, e3` are the results of those three `eval`
calls. -/
theorem claim_C8_get_3_values_structure (R : Nat → Nat → K) (theta : Theta K)
    (seed : Nat) (hd : ∀ r ∈ theta.promote, 3 ≤ r.length) :
    ∃ X, get_3_values R theta seed = .ok X ∧
      X.length = theta.promote.length ∧
      (∀ row ∈ X, row.length = 3) ∧
      (∀ e1 e2 e3, eval R theta (-(1 / 2)) seed = .ok e1 →
        eval R theta 0 seed = .ok e2 → eval R theta (3 / 4) seed = .ok e3 →
        ∀ j, j < theta.promote.length →
          X.getD j [] = [e1.getD j 0, e2.getD j 0, e3.getD j 0]) := by
  refine ⟨_, get_3_values_ok R theta seed hd, by simp, ?_, ?_⟩
  · intro row hrow
    rcases List.mem_map.mp hrow with ⟨j, _, rfl⟩
    rfl
  · intro e1 e2 e3 h1 h2 h3 j hj
    rw [eval_ok R theta (-(1 / 2)) seed hd] at h1
    rw [eval_ok R theta 0 seed hd] at h2
    rw [eval_ok R theta (3 / 4) seed hd] at h3
    injection h1 with h1
    injection h2 with h2
    injection h3 with h3
    subst h1 h2 h3
    rw [getD_map_range _ _ hj, getD_map_range _ _ hj, getD_map_range _ _ hj,
      getD_map_range _ _ hj,
      coeff_getD theta 0 hj, coeff_getD theta 1 hj, coeff_getD theta 2 hj]
    rfl

/-- Witness for C8 at the batch `[(1, 2, 3), (4, 5, 6)]` over ℚ. -/
theorem claim_C8_witness :
    ∃ X, get_3_values (fun _ k => (k : ℚ) + 1) (Theta.batch [[1, 2, 3], [4, 5, 6]]) 2
        = .ok X ∧
      X.length = (Theta.batch [[1, 2, 3], [4, 5, 6]]).promote.length ∧
      (∀ row ∈ X, row.length = 3) ∧
      (∀ e1 e2 e3,
        eval (fun _ k => (k : ℚ) + 1) (Theta.batch [[1, 2, 3], [4, 5, 6]]) (-(1 / 2)) 2
          = .ok e1 →
        eval (fun _ k => (k : ℚ) + 1) (Theta.batch [[1, 2, 3], [4, 5, 6]]) 0 2 = .ok e2 →
        eval (fun _ k => (k : ℚ) + 1) (Theta.batch [[1, 2, 3], [4, 5, 6]]) (3 / 4) 2
          = .ok e3 →
        ∀ j, j < (Theta.batch [[(1 : ℚ), 2, 3], [4, 5, 6]]).promote.length →
          X.getD j [] = [e1.getD j 0, e2.getD j 0, e3.getD j 0]) :=
  claim_C8_get_3_values_structure _ _ _ (by simp [Theta.promote])

/-- Counterexample for C2 as stated: with a fixed seed the three columns of
`get_3_values` DO share one and the same noise draw.  With the stream whose
draw k has value k + 1 and parameters (0, 0, 0), all three columns equal
0.01 · (draw 0) = 1/100; had each invocation consumed its own draw of a
common stream, the columns would have been 1/100, 2/100, 3/100. -/
theorem claim_C2_counterexample :
    get_3_values (fun _ k => (k : ℚ) + 1) (Theta.vec [0, 0, 0]) 0
      = .ok [[1 / 100, 1 / 100, 1 / 100]] := by
  rw [get_3_values_ok _ _ _ (by simp [Theta.promote])]
  norm_num [Theta.a, Theta.b, Theta.c, Theta.promote, List.range_succ]

/-- C2 amended: for every parameter batch and fixed seed, `get_3_values` is
deterministic (it depends on the random model only through the stream of the
given seed), and — contrary to the original claim — its three output columns
all carry the identical noise draw `(1/100) * R seed 0`: each of the three
`eval` invocations reconstructs a fresh generator from the same seed and
consumes the same first draw. -/
theorem claim_C2_amended_shared_noise (R1 R2 R : Nat → Nat → K) (theta : Theta K)
    (seed : Nat) (h12 : R1 seed = R2 seed)
    (hd : ∀ r ∈ theta.promote, 3 ≤ r.length) :
    get_3_values R1 theta seed = get_3_values R2 theta seed ∧
    ∃ X, get_3_values R theta seed = .ok X ∧
      ∀ j, j < theta.promote.length →
        X.getD j [] =
          [theta.a j * (-(1 / 2) : K) ^ 2 + theta.b j * (-(1 / 2)) + theta.c j
              + (1 / 100) * R seed 0,
           theta.a j * (0 : K) ^ 2 + theta.b j * 0 + theta.c j + (1 / 100) * R seed 0,
           theta.a j * ((3 / 4) : K) ^ 2 + theta.b j * (3 / 4) + theta.c j
              + (1 / 100) * R seed 0] := by
  constructor
  · unfold get_3_values eval
    simp only [h12]
  · refine ⟨_, get_3_values_ok R theta seed hd, ?_⟩
    intro j hj
    rw [getD_map_range _ _ hj]

/-- Witness for the amended C2: two stream models agreeing at seed 3, and the
column formula at the batch `[(1, 2, 3)]` over ℚ. -/
theorem claim_C2_witness :
    get_3_values (fun s k => (s : ℚ) + k) (Theta.vec [1, 2, 3]) 3
        = get_3_values (fun s k => (k : ℚ) + s) (Theta.vec [1, 2, 3]) 3 ∧
    ∃ X, get_3_values (fun _ k => (k : ℚ) + 1) (Theta.vec [1, 2, 3]) 3 = .ok X ∧
      ∀ j, j < (Theta.vec [(1 : ℚ), 2, 3]).promote.length →
        X.getD j [] =
          [(Theta.vec [(1 : ℚ), 2, 3]).a j * (-(1 / 2) : ℚ) ^ 2
              + (Theta.vec [(1 : ℚ), 2, 3]).b j * (-(1 / 2))
              + (Theta.vec [(1 : ℚ), 2, 3]).c j + (1 / 100) * ((0 : Nat) + 1),
           (Theta.vec [(1 : ℚ), 2, 3]).a j * (0 : ℚ) ^ 2
              + (Theta.vec [(1 : ℚ), 2, 3]).b j * 0
              + (Theta.vec [(1 : ℚ), 2, 3]).c j + (1 / 100) * ((0 : Nat) + 1),
           (Theta.vec [(1 : ℚ), 2, 3]).a j * ((3 / 4) : ℚ) ^ 2
              + (Theta.vec [(1 : ℚ), 2, 3]).b j * (3 / 4)
              + (Theta.vec [(1 : ℚ), 2, 3]).c j + (1 / 100) * ((0 : Nat) + 1)] :=
  claim_C2_amended_shared_noise _ _ _ _ _ (by funext k; push_cast; ring)
    (by simp [Theta.promote])

/-- Counterexample for C3 as stated: a parameter batch whose inner dimension
is 4 (greater than 3) does NOT fail fast — both the trace generator and the
point evaluator silently succeed, using only the first three columns. -/
theorem claim_C3_counterexample :
    isOk (create_t_x (fun _ _ => (0 : ℚ)) (Theta.batch [[1, 2, 3, 4]]) 0) = true ∧
    isOk (eval (fun _ _ => (0 : ℚ)) (Theta.batch [[1, 2, 3, 4]]) 2 0) = true := by
  constructor
  · rw [create_t_x_ok _ _ _ (by simp [Theta.promote])]
    rfl
  · rw [eval_ok _ _ _ _ (by simp [Theta.promote])]
    rfl

/-- C3 amended: for a nonempty rectangular parameter batch of inner dimension
d ≠ 3, the trace generator and point evaluator fail fast (with a descriptive
IndexError at the point of mismatch) when d < 3 — but when d > 3 they do NOT
fail: both silently succeed, reading only the first three columns. -/
theorem claim_C3_amended_shape_errors (R : Nat → Nat → K) (seed : Nat) (t : K)
    (rows : List (List K)) (d : Nat) (hne : rows ≠ [])
    (hrect : ∀ r ∈ rows, r.length = d) :
    (d < 3 → isOk (create_t_x R (.batch rows) seed) = false
      ∧ isOk (eval R (.batch rows) t seed) = false) ∧
    (3 < d → isOk (create_t_x R (.batch rows) seed) = true
      ∧ isOk (eval R (.batch rows) t seed) = true) := by
  obtain ⟨r₀, hr₀⟩ := List.exists_mem_of_ne_nil rows hne
  have hlen : r₀.length = d := hrect r₀ hr₀
  constructor
  · intro hd3
    have hcol : ∀ k : Nat, k < d → ∀ r ∈ (Theta.batch rows : Theta K).promote,
        k < r.length := by
      intro k hk r hr
      rw [hrect r hr]
      exact hk
    have herr : getCol ((Theta.batch rows).promote) d
        = .error "IndexError: index is out of bounds for axis 1" :=
      getCol_err _ _ r₀ hr₀ (le_of_eq hlen)
    interval_cases d
    · constructor
      · unfold create_t_x
        dsimp only
        rw [herr]
        rfl
      · unfold eval
        dsimp only
        rw [herr]
        rfl
    · constructor
      · unfold create_t_x
        dsimp only
        rw [getCol_ok _ 0 (hcol 0 (by norm_num)), ok_bind, herr]
        rfl
      · unfold eval
        dsimp only
        rw [getCol_ok _ 0 (hcol 0 (by norm_num)), ok_bind, herr]
        rfl
    · constructor
      · unfold create_t_x
        dsimp only
        rw [getCol_ok _ 0 (hcol 0 (by norm_num)), ok_bind,
          getCol_ok _ 1 (hcol 1 (by norm_num)), ok_bind, herr]
        rfl
      · unfold eval
        dsimp only
        rw [getCol_ok _ 0 (hcol 0 (by norm_num)), ok_bind,
          getCol_ok _ 1 (hcol 1 (by norm_num)), ok_bind, herr]
        rfl
  · intro h3
    have hd : ∀ r ∈ (Theta.batch rows).promote, 3 ≤ r.length := by
      intro r hr
      rw [hrect r hr]
      omega
    constructor
    · rw [create_t_x_ok R (.batch rows) seed hd]
      rfl
    · rw [eval_ok R (.batch rows) t seed hd]
      rfl

/-- Witness for the amended C3 at the concrete batch `[[1, 2]]` (inner
dimension 2) over ℚ. -/
theorem claim_C3_witness :
    ((2 : Nat) < 3 →
      isOk (create_t_x (fun _ _ => (0 : ℚ)) (.batch [[1, 2]]) 0) = false
      ∧ isOk (eval (fun _ _ => (0 : ℚ)) (.batch [[1, 2]]) 5 0) = false) ∧
    ((3 : Nat) < 2 →
      isOk (create_t_x (fun _ _ => (0 : ℚ)) (.batch [[1, 2]]) 0) = true
      ∧ isOk (eval (fun _ _ => (0 : ℚ)) (.batch [[1, 2]]) 5 0) = true) :=
  claim_C3_amended_shape_errors _ 0 5 [[1, 2]] 2 (by simp) (by simp)

/-- Witness for C6 at the single 1-D vector `(3, 2, 1)` over ℚ: the trace has
200 rows of width 1. -/
theorem claim_C6_witness :
    ∃ t x, create_t_x (fun _ _ => (0 : ℚ)) (Theta.vec [3, 2, 1]) 4 = .ok (t, x) ∧
      t.length = 200 ∧ x.length = 200 ∧
      (∀ row ∈ x, row.length = (Theta.vec [(3 : ℚ), 2, 1]).promote.length) ∧
      (∀ v : List ℚ, Theta.vec [(3 : ℚ), 2, 1] = Theta.vec v →
        (Theta.vec [(3 : ℚ), 2, 1]).promote.length = 1) :=
  claim_C6_trace_shape _ _ _ (by simp [Theta.promote])

/-- C7: for every valid candidate batch of size N and single reference vector
w, `get_MSE` returns an N × 1 column whose j-th entry is the mean over the
200-point time grid of the squared difference between the candidate trace for
sample j and the reference trace (the actual `create_t_x` outputs), and every
returned value is ≥ 0. -/
theorem claim_C7_get_MSE_column (R : Nat → Nat → K) (theta : Theta K) (w : List K)
    (seed : Nat) (hd : ∀ r ∈ theta.promote, 3 ≤ r.length) (hw3 : 3 ≤ w.length) :
    ∃ M tc xc tr xr,
      get_MSE R theta (.vec w) seed = .ok M ∧
      create_t_x R theta seed = .ok (tc, xc) ∧
      create_t_x R (.vec w) seed = .ok (tr, xr) ∧
      M.length = theta.promote.length ∧
      (∀ row ∈ M, row.length = 1) ∧
      (∀ j, j < theta.promote.length →
        M.getD j [] = [((List.range 200).map fun i =>
          ((xc.getD i []).getD j 0 - (xr.getD i []).getD 0 0) ^ 2).sum / (200 : K)]) ∧
      (∀ row ∈ M, ∀ u ∈ row, 0 ≤ u) := by
  have hdw : ∀ r ∈ (Theta.vec w).promote, 3 ≤ r.length := by
    intro r hr
    have : r = w := by simpa [Theta.promote] using hr
    subst this
    exact hw3
  refine ⟨_, _, _, _, _, get_MSE_ok_single_ref R theta w seed hd hw3,
    create_t_x_ok R theta seed hd, create_t_x_ok R (.vec w) seed hdw, by simp, ?_, ?_, ?_⟩
  · intro row hrow
    rcases List.mem_map.mp hrow with ⟨j, _, rfl⟩
    rfl
  · intro j hj
    rw [getD_map_range _ _ hj]
    congr 1
    refine congrArg (fun s => s / (200 : K)) (congrArg List.sum (List.map_congr_left ?_))
    intro i hi
    rw [List.mem_range] at hi
    rw [getD_map_range _ _ hi, getD_map_range _ _ hj, getD_map_range _ _ hi]
    have hr1 : List.range 1 = [0] := rfl
    have hpw : (Theta.vec w : Theta K).promote = [w] := rfl
    simp only [hpw, List.length_cons, List.length_nil, Nat.zero_add, hr1,
      List.map_cons, List.map_nil, List.getD_cons_zero]
  · intro row hrow u hu
    rcases List.mem_map.mp hrow with ⟨j, _, rfl⟩
    have hu' := List.mem_singleton.mp hu
    subst hu'
    refine div_nonneg (List.sum_nonneg ?_) (by norm_num)
    intro x hx
    rcases List.mem_map.mp hx with ⟨i, _, rfl⟩
    exact sq_nonneg _

/-- Witness for C7 at the candidate batch `[(1, 0, 0), (0, 1, 0)]` and
reference vector `(0, 0, 1)` over ℚ. -/
theorem claim_C7_witness :
    ∃ M tc xc tr xr,
      get_MSE (fun _ k => (k : ℚ) + 1) (Theta.batch [[1, 0, 0], [0, 1, 0]])
          (.vec [0, 0, 1]) 0 = .ok M ∧
      create_t_x (fun _ k => (k : ℚ) + 1) (Theta.batch [[1, 0, 0], [0, 1, 0]]) 0
        = .ok (tc, xc) ∧
      create_t_x (fun _ k => (k : ℚ) + 1) (.vec [0, 0, 1]) 0 = .ok (tr, xr) ∧
      M.length = (Theta.batch [[(1 : ℚ), 0, 0], [0, 1, 0]]).promote.length ∧
      (∀ row ∈ M, row.length = 1) ∧
      (∀ j, j < (Theta.batch [[(1 : ℚ), 0, 0], [0, 1, 0]]).promote.length →
        M.getD j [] = [((List.range 200).map fun i =>
          ((xc.getD i []).getD j 0 - (xr.getD i []).getD 0 0) ^ 2).sum / (200 : ℚ)]) ∧
      (∀ row ∈ M, ∀ u ∈ row, 0 ≤ u) :=
  claim_C7_get_MSE_column _ _ _ _ (by simp [Theta.promote]) (by simp)

/-- C9: for every fixed seed and a candidate batch consisting of exactly one
vector equal to the reference vector, `get_MSE` returns exactly [[0]] without
disabling noise: the theorem holds for every noise-stream model R, in
particular ones with nonzero draws — both internal `create_t_x` calls
construct a fresh generator from the same seed and draw 200 × 1 noise
matrices with identical draw indices, so the noise cancels exactly. -/
theorem claim_C9_get_MSE_exact_zero (R : Nat → Nat → K) (v : List K) (seed : Nat)
    (hv : 3 ≤ v.length) :
    get_MSE R (.batch [v]) (.vec v) seed = .ok [[0]] := by
  have hd : ∀ r ∈ (Theta.batch [v] : Theta K).promote, 3 ≤ r.length := by
    intro r hr
    have : r = v := by simpa [Theta.promote] using hr
    subst this
    exact hv
  rw [get_MSE_ok_single_ref R (.batch [v]) v seed hd hv]
  have hp : (Theta.batch [v] : Theta K).promote = [v] := rfl
  have hr1 : List.range 1 = [0] := rfl
  simp only [hp, List.length_cons, List.length_nil, Nat.zero_add, hr1,
    List.map_cons, List.map_nil, List.getD_cons_zero]
  norm_num

/-- Witness for C9 at the vector `(1, 2, 3)` over ℚ with the stream whose
draw k has value k + 1 (all noise draws nonzero). -/
theorem claim_C9_witness :
    get_MSE (fun _ k => (k : ℚ) + 1) (Theta.batch [[1, 2, 3]]) (.vec [1, 2, 3]) 5
      = .ok [[0]] :=
  claim_C9_get_MSE_exact_zero _ _ _ (by simp)

/-- C10: the single-vector broadcast rule extends to both statistic
extractors: for 1-D parameter vectors (no caller-side wrapping into a
batch), `get_3_values` returns a 1 × 3 matrix and `get_MSE` a 1 × 1
matrix. -/
theorem claim_C10_single_vector_broadcast (R : Nat → Nat → K) (v w : List K)
    (seed : Nat) (hv : 3 ≤ v.length) (hw : 3 ≤ w.length) :
    (∃ X, get_3_values R (.vec v) seed = .ok X ∧ X.length = 1 ∧
      ∀ row ∈ X, row.length = 3) ∧
    (∃ M, get_MSE R (.vec v) (.vec w) seed = .ok M ∧ M.length = 1 ∧
      ∀ row ∈ M, row.length = 1) := by
  have hdv : ∀ r ∈ (Theta.vec v : Theta K).promote, 3 ≤ r.length := by
    intro r hr
    have : r = v := by simpa [Theta.promote] using hr
    subst this
    exact hv
  constructor
  · refine ⟨_, get_3_values_ok R (.vec v) seed hdv, by simp [Theta.promote], ?_⟩
    intro row hrow
    rcases List.mem_map.mp hrow with ⟨j, _, rfl⟩
    rfl
  · refine ⟨_, get_MSE_ok_single_ref R (.vec v) w seed hdv hw, by simp [Theta.promote], ?_⟩
    intro row hrow
    rcases List.mem_map.mp hrow with ⟨j, _, rfl⟩
    rfl

/-- Witness for C10 at the 1-D vectors `(1, 2, 3)` and `(4, 5, 6)` over ℚ. -/
theorem claim_C10_witness :
    (∃ X, get_3_values (fun _ k => (k : ℚ) + 1) (Theta.vec [1, 2, 3]) 0 = .ok X ∧
      X.length = 1 ∧ ∀ row ∈ X, row.length = 3) ∧
    (∃ M, get_MSE (fun _ k => (k : ℚ) + 1) (Theta.vec [1, 2, 3]) (.vec [4, 5, 6]) 0
        = .ok M ∧ M.length = 1 ∧ ∀ row ∈ M, row.length = 1) :=
  claim_C10_single_vector_broadcast _ _ _ _ (by simp) (by simp)

end SummaryStats
